import Mathlib

/-!
Shallow embedding of `src/knct.py` (the K-NCT annotation parser) and proofs
about it.

`parse_errors` in the Python source scans `entry.error_sentence` with the
regular expression `<(e\d+)>(.*?)</\1>` (via `re.finditer`), strips each
matched marker, records a `GrammarError` span per marker whose positions are
indices into the stripped text, and looks the marker's tag up in
`entry.error_type` (a `KeyError` aborts the whole call).

Strings are modelled as lists of Unicode scalar values (`List Char`), which
is also Python's notion of string length and indexing.  The regex engine is
modelled by hand with the exact semantics `re.finditer` gives this pattern:
leftmost match wins, `e\d+` takes the maximal digit run, `(.*?)` is
non-greedy and never crosses a newline, and scanning resumes after each
match's end.  Dictionary lookup is modelled by an association list; a missing
key becomes `Except.error` carrying the offending tag, mirroring `KeyError`.
-/

namespace Knct

/-- Embedding of the pydantic model `KNCTEntry`: one record of the dataset.
`error_type` is the tag-to-label dictionary, modelled as an association
list. -/
structure KNCTEntry where
  index : Int
  error_sentence : String
  correct_sentence : String
  domain : String
  style : String
  syllable : Int
  phrase : Int
  number_of_error : Int
  error_type : List (String × String)
deriving DecidableEq

/-- Embedding of the pydantic model `GrammarError`: one annotated span.
`start`/`end` are half-open indices into the clean text. -/
structure GrammarError where
  text : String
  start : Nat
  «end» : Nat
  type : String
deriving DecidableEq

/-- Attempt to match the opening part `<(e\d+)>` of the tag pattern at the
head of `l`.  On success, returns the captured tag (`e` plus the maximal
digit run, which is what the regex engine commits to since the following
character must be `>`), and the remaining input.  `\d` is modelled as the
decimal digits `0`-`9`, the alphabet the dataset's tags (`e1`, `e2`, …) draw
from. -/
def matchOpen : List Char → Option (List Char × List Char)
  | c₀ :: c₁ :: rest =>
    if c₀ = '<' ∧ c₁ = 'e' then
      if rest.takeWhile Char.isDigit = [] then none
      else
        match rest.dropWhile Char.isDigit with
        | c₂ :: r =>
          if c₂ = '>' then some ('e' :: rest.takeWhile Char.isDigit, r)
          else none
        | [] => none
    else none
  | _ => none

/-- The closing delimiter `</TAG>` demanded by the back-reference `</\1>`. -/
def closeTag (tag : List Char) : List Char :=
  '<' :: '/' :: (tag ++ ['>'])

/-- Non-greedy payload matching for `(.*?)` followed by the closing
delimiter: find the shortest prefix (the payload) after which `close` occurs,
never letting `.` consume a newline.  Returns the payload and the input after
the closing delimiter. -/
def findPayload (close : List Char) : List Char → Option (List Char × List Char)
  | [] => none
  | c :: cs =>
    if close.isPrefixOf (c :: cs) then some ([], (c :: cs).drop close.length)
    else if c = '\n' then none
    else
      match findPayload close cs with
      | some (p, r) => some (c :: p, r)
      | none => none

/-- Attempt to match the whole pattern `<(e\d+)>(.*?)</\1>` at the head of
`l`.  Returns the captured tag, the captured payload, and the input after the
match. -/
def matchAt (l : List Char) : Option (List Char × List Char × List Char) :=
  match matchOpen l with
  | none => none
  | some (tag, r) =>
    match findPayload (closeTag tag) r with
    | none => none
    | some (p, rest) => some (tag, p, rest)

/-- One step of `re.finditer`: find the leftmost match in `l`.  Returns the
gap (text before the match), the tag, the payload and the input after the
match. -/
def findNext : List Char → Option (List Char × List Char × List Char × List Char)
  | [] => none
  | c :: cs =>
    match matchAt (c :: cs) with
    | some (t, p, r) => some ([], t, p, r)
    | none =>
      match findNext cs with
      | some (g, t, p, r) => some (c :: g, t, p, r)
      | none => none

/-- A recognized marker as the scan records it: gap text before the marker,
captured tag, captured payload. -/
abbrev Marker := List Char × List Char × List Char

/-- Fuelled driver of the `re.finditer` loop: collect all matches left to
right, resuming after each match's end; also return the tail after the last
match.  Every match consumes at least one character, so `l.length` fuel
suffices. -/
def findMarkersAux : Nat → List Char → List Marker × List Char
  | 0, l => ([], l)
  | fuel + 1, l =>
    match findNext l with
    | none => ([], l)
    | some (g, t, p, r) =>
      let step := findMarkersAux fuel r
      ((g, t, p) :: step.1, step.2)

/-- All matches of `<(e\d+)>(.*?)</\1>` in `l`, in order, with their gaps,
plus the tail after the last match: the information `re.finditer` feeds the
loop in `parse_errors`. -/
def findMarkers (l : List Char) : List Marker × List Char :=
  findMarkersAux l.length l

/-- Dictionary lookup `error_type[tag_name]`, as an option. -/
def lookupLabel (error_type : List (String × String)) (tag : List Char) :
    Option String :=
  match error_type.find? (fun kv => kv.1 == String.mk tag) with
  | some kv => some kv.2
  | none => none

/-- The loop body of `parse_errors`: walk the recognized markers carrying
`clean_index` (the running length of the clean text built so far), emit a
`GrammarError` per marker, and rebuild the clean text from gaps, payloads and
the final tail.  A tag missing from `error_type` aborts the whole call with
the offending tag, as `KeyError` does. -/
def processMarkers (error_type : List (String × String)) :
    Nat → List Marker → List Char → Except String (List Char × List GrammarError)
  | _, [], tail => .ok (tail, [])
  | clean_index, (g, t, p) :: ms, tail =>
    match lookupLabel error_type t with
    | none => .error (String.mk t)
    | some label =>
      let s := clean_index + g.length
      match processMarkers error_type (s + p.length) ms tail with
      | .error e => .error e
      | .ok (rest, es) =>
        .ok (g ++ p ++ rest,
          { text := String.mk p, start := s, «end» := s + p.length,
            type := label } :: es)

/-- Embedding of `parse_errors`: parse the tagged `error_sentence` of an
entry into the clean text and the list of `GrammarError` spans, or fail with
the first tag that is missing from `error_type`. -/
def parse_errors (entry : KNCTEntry) :
    Except String (String × List GrammarError) :=
  let pr := findMarkers entry.error_sentence.data
  match processMarkers entry.error_type 0 pr.1 pr.2 with
  | .error e => .error e
  | .ok (clean, es) => .ok (String.mk clean, es)

/-- The raw text a recognized marker occupies in the input:
`<TAG>payload</TAG>`. -/
def markerText (tag payload : List Char) : List Char :=
  '<' :: tag ++ '>' :: payload ++ closeTag tag

/-- Rebuild the raw input from the scan's markers and tail. -/
def rebuildRaw : List Marker → List Char → List Char
  | [], tail => tail
  | (g, t, p) :: ms, tail => g ++ markerText t p ++ rebuildRaw ms tail

/-- Rebuild the clean text from the scan's markers and tail: each marker is
replaced by its payload, gaps and tail are kept verbatim. -/
def rebuildClean : List Marker → List Char → List Char
  | [], tail => tail
  | (g, _, p) :: ms, tail => g ++ p ++ rebuildClean ms tail

/-- Characters occupied by the two delimiters `<TAG>` and `</TAG>` of one
marker. -/
def delimLen (tag : List Char) : Nat :=
  (tag.length + 2) + (tag.length + 3)

/-- Total delimiter characters removed over a list of recognized markers. -/
def delimTotal : List Marker → Nat
  | [] => 0
  | (_, t, _) :: ms => delimLen t + delimTotal ms

/-- A concrete record builder used by the concrete evaluations below:
metadata fields are filled with fixed values, since `parse_errors` reads
only `error_sentence` and `error_type`. -/
def sampleEntry (s : String) (et : List (String × String)) : KNCTEntry :=
  { index := 0, error_sentence := s, correct_sentence := "", domain := "test",
    style := "test", syllable := 0, phrase := 0, number_of_error := 0,
    error_type := et }

def entryC1 : KNCTEntry := sampleEntry "abc <e1>def</e1> ghi" [("e1", "X")]

def entryC2 : KNCTEntry := sampleEntry "<e1>X</e1>" []

def entryC3bad : KNCTEntry := sampleEntry "<ab1>x</ab1>" [("ab1", "lexical")]

def entryC3 : KNCTEntry := sampleEntry "ab <e1>cd</e1> ef" [("e1", "X")]

def entryC4 : KNCTEntry :=
  sampleEntry "a < b > <e1>c</e1> <e2>d oops" [("e1", "X")]

def entryC5 : KNCTEntry :=
  sampleEntry "<e1>AA</e1>x<e2>BB</e2>" [("e1", "X"), ("e2", "Y")]

def entryC6 : KNCTEntry :=
  sampleEntry "aa <e7>bb</e7>." [("e7", "Z")]

def entryC7 : KNCTEntry := sampleEntry "no markers here" []

def entryC8 : KNCTEntry :=
  sampleEntry "<e1>AA</e1><e2>BB</e2>" [("e1", "X"), ("e2", "Y")]

def entryC9a : KNCTEntry :=
  { index := 1, error_sentence := "a <e1>b</e1>", correct_sentence := "a c",
    domain := "news", style := "written", syllable := 3, phrase := 2,
    number_of_error := 1, error_type := [("e1", "kind")] }

def entryC9b : KNCTEntry :=
  { index := 2, error_sentence := "a <e1>b</e1>",
    correct_sentence := "different", domain := "daily", style := "spoken",
    syllable := 9, phrase := 5, number_of_error := 3,
    error_type := [("e1", "kind")] }

def entryC10 : KNCTEntry := sampleEntry "<e1>a\nb</e1>" [("e1", "X")]

/-! ### Lemmas about the matcher -/

lemma takeWhile_digits_append (ds r : List Char) (h : ∀ c ∈ ds, c.isDigit)
    (hr : ∀ c ∈ r.take 1, c.isDigit = false) :
    (ds ++ r).takeWhile Char.isDigit = ds ∧
      (ds ++ r).dropWhile Char.isDigit = r := by
  induction ds with
  | nil =>
    cases r with
    | nil => simp
    | cons c cs =>
      have hc : c.isDigit = false := hr c (by simp)
      simp [List.takeWhile_cons, List.dropWhile_cons, hc]
  | cons d ds ih =>
    have hd : d.isDigit = true := h d (by simp)
    have := ih (fun c hc => h c (by simp [hc]))
    simp [List.takeWhile_cons, List.dropWhile_cons, hd, this.1, this.2]

/-- Completeness of the opening-tag matcher at a well-formed opening tag. -/
lemma matchOpen_marker (ds r : List Char) (hne : ds ≠ [])
    (hdig : ∀ c ∈ ds, c.isDigit) :
    matchOpen ('<' :: 'e' :: ds ++ '>' :: r) = some ('e' :: ds, r) := by
  have h := takeWhile_digits_append ds ('>' :: r) hdig
    (by intro c hc; simp at hc; subst hc; decide)
  simp only [matchOpen, List.cons_append]
  simp [h.1, h.2, hne]

/-- Soundness of the opening-tag matcher: a successful match exposes the
exact shape of the input. -/
lemma matchOpen_sound (l tag r : List Char)
    (h : matchOpen l = some (tag, r)) :
    ∃ ds, tag = 'e' :: ds ∧ ds ≠ [] ∧ (∀ c ∈ ds, c.isDigit) ∧
      l = '<' :: 'e' :: ds ++ '>' :: r := by
  match l with
  | [] => simp [matchOpen] at h
  | [c₀] => simp [matchOpen] at h
  | c₀ :: c₁ :: rest =>
    simp only [matchOpen] at h
    by_cases h01 : c₀ = '<' ∧ c₁ = 'e'
    · obtain ⟨rfl, rfl⟩ := h01
      rw [if_pos ⟨rfl, rfl⟩] at h
      by_cases hds : rest.takeWhile Char.isDigit = []
      · rw [if_pos hds] at h; simp at h
      · rw [if_neg hds] at h
        rcases hdw : rest.dropWhile Char.isDigit with _ | ⟨c₂, r'⟩ <;> rw [hdw] at h
        · simp at h
        · by_cases hc₂ : c₂ = '>'
          · subst hc₂
            simp at h
            obtain ⟨h1, rfl⟩ := h
            subst h1
            have hrest : rest.takeWhile Char.isDigit ++ '>' :: r' = rest := by
              rw [← hdw]
              exact List.takeWhile_append_dropWhile Char.isDigit rest
            exact ⟨rest.takeWhile Char.isDigit, rfl, hds,
              fun c hc => List.mem_takeWhile_imp hc, by
                simp only [List.cons_append]; rw [hrest]⟩
          · simp [hc₂] at h
    · rw [if_neg h01] at h; simp at h

lemma findPayload_cons (close : List Char) (c : Char) (cs : List Char) :
    findPayload close (c :: cs) =
      if close.isPrefixOf (c :: cs) then some ([], (c :: cs).drop close.length)
      else if c = '\n' then none
      else
        match findPayload close cs with
        | some (p, r) => some (c :: p, r)
        | none => none := rfl

/-- Soundness of the payload matcher: a successful match decomposes the
input as payload, closing delimiter, remainder. -/
lemma findPayload_sound (close : List Char) :
    ∀ l p r : List Char, findPayload close l = some (p, r) →
      l = p ++ (close ++ r) := by
  intro l
  induction l with
  | nil => intro p r h; simp [findPayload] at h
  | cons c cs ih =>
    intro p r h
    rw [findPayload_cons] at h
    by_cases hpre : close.isPrefixOf (c :: cs)
    · rw [if_pos hpre] at h
      simp only [Option.some.injEq, Prod.mk.injEq] at h
      obtain ⟨h1, h2⟩ := h
      subst h1
      obtain ⟨t, ht⟩ := List.isPrefixOf_iff_prefix.mp hpre
      have hdrop : (c :: cs).drop close.length = t := by
        rw [← ht]; exact List.drop_left close t
      rw [hdrop] at h2
      subst h2
      simp [← ht]
    · rw [if_neg hpre] at h
      by_cases hnl : c = '\n'
      · rw [if_pos hnl] at h; simp at h
      · rw [if_neg hnl] at h
        rcases hfp : findPayload close cs with _ | ⟨p', r'⟩ <;> rw [hfp] at h <;>
          simp at h
        obtain ⟨rfl, rfl⟩ := h
        simp only [List.cons_append, List.cons.injEq, true_and]
        exact ih _ _ hfp

/-- Completeness of the payload matcher: if the payload is newline-free and
the closing delimiter occurs nowhere before its intended position, the
non-greedy scan finds exactly the payload. -/
lemma findPayload_complete (close : List Char) (hc : close ≠ []) :
    ∀ payload suf : List Char,
      (∀ c ∈ payload, c ≠ '\n') →
      (∀ i < payload.length,
        ¬ close.isPrefixOf ((payload ++ (close ++ suf)).drop i)) →
      findPayload close (payload ++ (close ++ suf)) = some (payload, suf) := by
  intro payload
  induction payload with
  | nil =>
    intro suf _ _
    rcases hcl : close with _ | ⟨c, cs⟩
    · exact absurd hcl hc
    rw [List.nil_append, List.cons_append, findPayload_cons]
    have hpre : (c :: cs).isPrefixOf (c :: (cs ++ suf)) := by
      rw [ List.isPrefixOf_iff_prefix]
      exact ⟨suf, by simp⟩
    rw [if_pos hpre]
    have hdrop : (c :: (cs ++ suf)).drop (c :: cs).length = suf := by
      rw [← List.cons_append]
      exact List.drop_left (c :: cs) suf
    rw [hdrop]
  | cons a p' ih =>
    intro suf hnl hno
    have hform : (a :: p') ++ (close ++ suf) = a :: (p' ++ (close ++ suf)) :=
      List.cons_append a p' (close ++ suf)
    rw [hform, findPayload_cons]
    have h0 : ¬ close.isPrefixOf (a :: (p' ++ (close ++ suf))) := by
      have := hno 0 (by simp)
      rw [List.drop_zero] at this
      rwa [hform] at this
    rw [if_neg h0, if_neg (hnl a (by simp))]
    have hrec := ih suf (fun c hc' => hnl c (by simp [hc']))
      (fun i hi => by
        have := hno (i + 1) (by simp; omega)
        rwa [hform, List.drop_succ_cons] at this)
    rw [hrec]

/-- The non-greedy payload scan fails when a newline occurs before any
occurrence of the closing delimiter: `.` in the pattern never crosses a
line break. -/
lemma findPayload_newline (close : List Char) :
    ∀ (k : Nat) (l : List Char), k < l.length → l.getD k ' ' = '\n' →
      (∀ i ≤ k, ¬ close.isPrefixOf (l.drop i)) →
      findPayload close l = none := by
  intro k
  induction k with
  | zero =>
    intro l hk hnl hno
    rcases l with _ | ⟨c, cs⟩
    · simp at hk
    have hc : c = '\n' := by simpa using hnl
    rw [findPayload_cons, if_neg (by simpa using hno 0 (Nat.le_refl 0)), if_pos hc]
  | succ k ih =>
    intro l hk hnl hno
    rcases l with _ | ⟨c, cs⟩
    · simp at hk
    rw [findPayload_cons, if_neg (by simpa using hno 0 (Nat.zero_le _))]
    by_cases hc : c = '\n'
    · rw [if_pos hc]
    · rw [if_neg hc]
      have hrec : findPayload close cs = none :=
        ih cs (by simpa using hk) (by simpa using hnl)
          (fun i hi => by
            have := hno (i + 1) (by omega)
            rwa [List.drop_succ_cons] at this)
      rw [hrec]

/-- Character count of the raw text of one marker: payload length plus the
two delimiters. -/
lemma markerText_length (t p : List Char) :
    (markerText t p).length = p.length + delimLen t := by
  simp [markerText, closeTag, delimLen]
  omega

/-- Soundness of the full-pattern matcher: a successful match at the head
exposes the marker's raw text and a well-formed tag. -/
lemma matchAt_sound (l t p r : List Char) (h : matchAt l = some (t, p, r)) :
    (∃ ds, t = 'e' :: ds ∧ ds ≠ [] ∧ ∀ c ∈ ds, c.isDigit) ∧
      l = markerText t p ++ r := by
  unfold matchAt at h
  rcases hmo : matchOpen l with _ | ⟨tag, r₀⟩ <;> rw [hmo] at h
  · simp at h
  · simp only [] at h
    rcases hfp : findPayload (closeTag tag) r₀ with _ | ⟨p', rest⟩ <;>
      rw [hfp] at h <;> simp at h
    obtain ⟨h1, h2, h3⟩ := h
    subst h1; subst h2; subst h3
    obtain ⟨ds, htag, hne, hdig, hshape⟩ := matchOpen_sound _ _ _ hmo
    subst htag
    have hr₀ := findPayload_sound _ _ _ _ hfp
    refine ⟨⟨ds, rfl, hne, hdig⟩, ?_⟩
    rw [hshape, hr₀]
    simp [markerText, closeTag]

/-- A successful match strictly consumes input. -/
lemma matchAt_length (l t p r : List Char) (h : matchAt l = some (t, p, r)) :
    r.length < l.length := by
  obtain ⟨-, hshape⟩ := matchAt_sound l t p r h
  rw [hshape]
  have := markerText_length t p
  simp [this, delimLen]

/-- Completeness of the full-pattern matcher at a well-formed marker. -/
lemma matchAt_marker (ds payload suf : List Char) (hne : ds ≠ [])
    (hdig : ∀ c ∈ ds, c.isDigit)
    (hnl : ∀ c ∈ payload, c ≠ '\n')
    (hno : ∀ i < payload.length,
      ¬ (closeTag ('e' :: ds)).isPrefixOf
        ((payload ++ (closeTag ('e' :: ds) ++ suf)).drop i)) :
    matchAt (markerText ('e' :: ds) payload ++ suf)
      = some ('e' :: ds, payload, suf) := by
  have hshape : markerText ('e' :: ds) payload ++ suf
      = '<' :: 'e' :: ds ++ '>' :: (payload ++ (closeTag ('e' :: ds) ++ suf)) := by
    simp [markerText, closeTag]
  unfold matchAt
  rw [hshape, matchOpen_marker ds _ hne hdig]
  simp [findPayload_complete (closeTag ('e' :: ds)) (by simp [closeTag]) payload suf hnl hno]

lemma findNext_cons (c : Char) (cs : List Char) :
    findNext (c :: cs) =
      match matchAt (c :: cs) with
      | some (t, p, r) => some ([], t, p, r)
      | none =>
        match findNext cs with
        | some (g, t, p, r) => some (c :: g, t, p, r)
        | none => none := rfl

/-- Soundness of the leftmost-match search: the input decomposes as gap,
marker text, remainder, and the remainder is strictly shorter. -/
lemma findNext_sound : ∀ l g t p r : List Char,
    findNext l = some (g, t, p, r) →
      l = g ++ (markerText t p ++ r) ∧ r.length < l.length := by
  intro l
  induction l with
  | nil => intro g t p r h; simp [findNext] at h
  | cons c cs ih =>
    intro g t p r h
    rw [findNext_cons] at h
    rcases hma : matchAt (c :: cs) with _ | ⟨t', p', r'⟩ <;> rw [hma] at h
    · rcases hfn : findNext cs with _ | ⟨⟨g', t', p', r'⟩⟩ <;> rw [hfn] at h <;>
        simp at h
      obtain ⟨rfl, rfl, rfl, rfl⟩ := h
      obtain ⟨hdec, hlen⟩ := ih _ _ _ _ hfn
      refine ⟨by simp [List.cons_append, hdec], ?_⟩
      simp only [List.length_cons]
      omega
    · simp at h
      obtain ⟨rfl, rfl, rfl, rfl⟩ := h
      obtain ⟨-, hshape⟩ := matchAt_sound _ _ _ _ hma
      exact ⟨by simpa using hshape, matchAt_length _ _ _ _ hma⟩

lemma findMarkersAux_nil (fuel : Nat) : findMarkersAux fuel [] = ([], []) := by
  cases fuel <;> simp [findMarkersAux, findNext]

lemma findMarkersAux_succ (fuel : Nat) (l : List Char) :
    findMarkersAux (fuel + 1) l =
      match findNext l with
      | none => ([], l)
      | some (g, t, p, r) =>
        ((g, t, p) :: (findMarkersAux fuel r).1, (findMarkersAux fuel r).2) := rfl

lemma findMarkersAux_succ_none (fuel : Nat) (l : List Char)
    (h : findNext l = none) : findMarkersAux (fuel + 1) l = ([], l) := by
  rw [findMarkersAux_succ, h]

lemma findMarkersAux_succ_some (fuel : Nat) (l g t p r : List Char)
    (h : findNext l = some (g, t, p, r)) :
    findMarkersAux (fuel + 1) l =
      ((g, t, p) :: (findMarkersAux fuel r).1, (findMarkersAux fuel r).2) := by
  rw [findMarkersAux_succ, h]

/-- The fuelled loop is fuel-insensitive once the fuel covers the input
length. -/
lemma findMarkersAux_congr : ∀ f₁ f₂ : Nat, ∀ l : List Char,
    l.length ≤ f₁ → l.length ≤ f₂ →
      findMarkersAux f₁ l = findMarkersAux f₂ l := by
  intro f₁
  induction f₁ with
  | zero =>
    intro f₂ l h1 _
    have hl : l = [] := List.eq_nil_of_length_eq_zero (Nat.le_zero.mp h1)
    subst hl
    rw [findMarkersAux_nil, findMarkersAux_nil]
  | succ f ih =>
    intro f₂ l h1 h2
    cases f₂ with
    | zero =>
      have hl : l = [] := List.eq_nil_of_length_eq_zero (Nat.le_zero.mp h2)
      subst hl
      rw [findMarkersAux_nil, findMarkersAux_nil]
    | succ f₂ =>
      rcases hfn : findNext l with _ | ⟨⟨g, t, p, r⟩⟩
      · rw [findMarkersAux_succ_none f l hfn, findMarkersAux_succ_none f₂ l hfn]
      · have hlen := (findNext_sound l g t p r hfn).2
        rw [findMarkersAux_succ_some f l g t p r hfn,
          findMarkersAux_succ_some f₂ l g t p r hfn,
          ih f₂ r (by omega) (by omega)]

lemma findMarkers_eq_none (l : List Char) (h : findNext l = none) :
    findMarkers l = ([], l) := by
  cases l with
  | nil => simp [findMarkers, findMarkersAux_nil]
  | cons c cs =>
    show findMarkersAux (cs.length + 1) (c :: cs) = ([], c :: cs)
    exact findMarkersAux_succ_none cs.length (c :: cs) h

lemma findMarkers_eq_cons (l g t p r : List Char)
    (h : findNext l = some (g, t, p, r)) :
    findMarkers l = ((g, t, p) :: (findMarkers r).1, (findMarkers r).2) := by
  have hlen := (findNext_sound l g t p r h).2
  cases l with
  | nil => simp [findNext] at h
  | cons c cs =>
    have hlen' : r.length ≤ cs.length := by
      simp only [List.length_cons] at hlen
      omega
    show findMarkersAux (cs.length + 1) (c :: cs) = _
    rw [findMarkersAux_succ_some cs.length (c :: cs) g t p r h,
      findMarkersAux_congr cs.length r.length r hlen' (Nat.le_refl _)]
    rfl

/-- The scan decomposes the input exactly: gaps, raw marker texts and the
tail concatenate back to the input. -/
lemma findMarkers_rebuild : ∀ n : Nat, ∀ l : List Char, l.length ≤ n →
    rebuildRaw (findMarkers l).1 (findMarkers l).2 = l := by
  intro n
  induction n with
  | zero =>
    intro l h
    have hl : l = [] := List.eq_nil_of_length_eq_zero (Nat.le_zero.mp h)
    subst hl
    simp [findMarkers, findMarkersAux_nil, rebuildRaw]
  | succ n ih =>
    intro l h
    rcases hfn : findNext l with _ | ⟨⟨g, t, p, r⟩⟩
    · rw [findMarkers_eq_none l hfn]; rfl
    · obtain ⟨hdec, hlen⟩ := findNext_sound l g t p r hfn
      rw [findMarkers_eq_cons l g t p r hfn, rebuildRaw, ih r (by omega),
        List.append_assoc]
      exact hdec.symm

/-- Unfuelled form of the decomposition. -/
lemma findMarkers_rebuildRaw (l : List Char) :
    rebuildRaw (findMarkers l).1 (findMarkers l).2 = l :=
  findMarkers_rebuild l.length l (Nat.le_refl _)

/-- Completeness of the leftmost-match search: if no match starts inside
`pre` and a match starts right after it, that match is found with gap
`pre`. -/
lemma findNext_from_gap : ∀ pre l t p r : List Char,
    (∀ i, i < pre.length → matchAt ((pre ++ l).drop i) = none) →
    matchAt l = some (t, p, r) →
    findNext (pre ++ l) = some (pre, t, p, r) := by
  intro pre
  induction pre with
  | nil =>
    intro l t p r _ hma
    obtain ⟨-, hshape⟩ := matchAt_sound _ _ _ _ hma
    rcases l with _ | ⟨c, cs⟩
    · exact absurd hshape (by simp [markerText])
    · rw [List.nil_append, findNext_cons, hma]
  | cons a pre' ih =>
    intro l t p r hpre hma
    rw [List.cons_append, findNext_cons]
    have h0 : matchAt (a :: (pre' ++ l)) = none := by
      have := hpre 0 (by simp)
      simpa using this
    rw [h0, ih l t p r (fun i hi => by
      have := hpre (i + 1) (by simp only [List.length_cons]; omega)
      rwa [List.cons_append, List.drop_succ_cons] at this) hma]

/-! ### Lemmas about the processing loop -/

lemma processMarkers_cons (et : List (String × String)) (ci : Nat)
    (g t p : List Char) (ms : List Marker) (tail : List Char) :
    processMarkers et ci ((g, t, p) :: ms) tail =
      match lookupLabel et t with
      | none => .error (String.mk t)
      | some label =>
        match processMarkers et (ci + g.length + p.length) ms tail with
        | .error e => .error e
        | .ok (rest, es) =>
          .ok (g ++ p ++ rest,
            { text := String.mk p, start := ci + g.length,
              «end» := ci + g.length + p.length, type := label } :: es) := rfl

/-- Master invariant of the processing loop on success: the clean text is
the gaps-plus-payloads reconstruction, span texts follow the markers in
order, every span is within bounds and measures its own text, and
consecutive spans do not overlap. -/
lemma processMarkers_ok : ∀ (ms : List Marker) (et : List (String × String))
    (ci : Nat) (tail ct : List Char) (es : List GrammarError),
    processMarkers et ci ms tail = .ok (ct, es) →
    ct = rebuildClean ms tail ∧
    es.map (fun e => e.text) = ms.map (fun m => String.mk m.2.2) ∧
    (∀ e ∈ es, ci ≤ e.start ∧ e.start ≤ e.«end» ∧ e.«end» ≤ ci + ct.length ∧
      e.«end» - e.start = e.text.length) ∧
    List.Chain' (fun a b => a.«end» ≤ b.start) es := by
  intro ms
  induction ms with
  | nil =>
    intro et ci tail ct es h
    simp only [processMarkers] at h
    obtain ⟨rfl, rfl⟩ : tail = ct ∧ ([] : List GrammarError) = es := by
      simpa using h
    simp [rebuildClean]
  | cons m ms ih =>
    obtain ⟨g, t, p⟩ := m
    intro et ci tail ct es h
    rw [processMarkers_cons] at h
    rcases hlk : lookupLabel et t with _ | ⟨label⟩ <;> rw [hlk] at h
    · simp at h
    · rcases hrec : processMarkers et (ci + g.length + p.length) ms tail with
        e | ⟨rest, es'⟩ <;> rw [hrec] at h
      · simp at h
      · simp only [Except.ok.injEq, Prod.mk.injEq] at h
        obtain ⟨h1, h2⟩ := h
        subst h1; subst h2
        obtain ⟨hclean, hmap, hbounds, hchain⟩ := ih et _ tail rest es' hrec
        subst hclean
        refine ⟨rfl, by simp [hmap], ?_, ?_⟩
        · intro e he
          rcases List.mem_cons.mp he with rfl | he'
          · refine ⟨Nat.le_add_right _ _, Nat.le_add_right _ _, ?_, ?_⟩
            · simp only [List.length_append]
              omega
            · show ci + g.length + p.length - (ci + g.length)
                = (String.mk p).length
              have : (String.mk p).length = p.length := rfl
              omega
          · obtain ⟨hb1, hb2, hb3, hb4⟩ := hbounds e he'
            refine ⟨by omega, hb2, ?_, hb4⟩
            simp only [List.length_append]
            omega
        · rw [List.chain'_cons']
          refine ⟨?_, hchain⟩
          intro b hb
          have hbmem : b ∈ es' := by
            cases hes' : es' with
            | nil => rw [hes'] at hb; simp at hb
            | cons x xs => rw [hes'] at hb; simp at hb; simp [hes', hb]
          have := (hbounds b hbmem).1
          show ci + g.length + p.length ≤ b.start
          omega

/-- The processing loop fails exactly on the first marker whose tag has no
label, and the error carries that tag. -/
lemma processMarkers_error : ∀ (ms : List Marker) (et : List (String × String))
    (ci : Nat) (tail : List Char) (e : String),
    processMarkers et ci ms tail = .error e →
    (∃ m ∈ ms, String.mk m.2.1 = e ∧ lookupLabel et m.2.1 = none) := by
  intro ms
  induction ms with
  | nil =>
    intro et ci tail e h
    simp [processMarkers] at h
  | cons m ms ih =>
    obtain ⟨g, t, p⟩ := m
    intro et ci tail e h
    rw [processMarkers_cons] at h
    rcases hlk : lookupLabel et t with _ | ⟨label⟩ <;> rw [hlk] at h
    · refine ⟨(g, t, p), by simp, ?_, hlk⟩
      simpa using h
    · rcases hrec : processMarkers et (ci + g.length + p.length) ms tail with
        e' | ⟨rest, es'⟩ <;> rw [hrec] at h
      · obtain ⟨m', hm', hme, hml⟩ := ih et _ tail e' hrec
        have he : e' = e := by simpa using h
        subst he
        exact ⟨m', by simp [hm'], hme, hml⟩
      · simp at h

/-- Conversely, a marker with an unlabelled tag makes the loop fail. -/
lemma processMarkers_error_exists : ∀ (ms : List Marker)
    (et : List (String × String)) (ci : Nat) (tail : List Char),
    (∃ m ∈ ms, lookupLabel et m.2.1 = none) →
    ∃ e, processMarkers et ci ms tail = .error e := by
  intro ms
  induction ms with
  | nil =>
    intro et ci tail h
    simp at h
  | cons m ms ih =>
    obtain ⟨g, t, p⟩ := m
    intro et ci tail h
    rw [processMarkers_cons]
    rcases hlk : lookupLabel et t with _ | ⟨label⟩
    · exact ⟨String.mk t, rfl⟩
    · have hms : ∃ m ∈ ms, lookupLabel et m.2.1 = none := by
        obtain ⟨m', hm', hnone⟩ := h
        rcases List.mem_cons.mp hm' with rfl | hm''
        · rw [hnone] at hlk; exact absurd hlk (by simp)
        · exact ⟨m', hm'', hnone⟩
      obtain ⟨e, he⟩ := ih et (ci + g.length + p.length) tail hms
      rw [he]
      exact ⟨e, rfl⟩

/-- If every recognized tag is labelled, the loop succeeds. -/
lemma processMarkers_ok_of_covered : ∀ (ms : List Marker)
    (et : List (String × String)) (ci : Nat) (tail : List Char),
    (∀ m ∈ ms, lookupLabel et m.2.1 ≠ none) →
    ∃ ct es, processMarkers et ci ms tail = .ok (ct, es) := by
  intro ms et ci tail hcov
  rcases h : processMarkers et ci ms tail with e | ⟨ct, es⟩
  · obtain ⟨m, hm, -, hnone⟩ := processMarkers_error ms et ci tail e h
    exact absurd hnone (hcov m hm)
  · exact ⟨ct, es, rfl⟩

/-- Raw length = clean length + removed delimiter characters. -/
lemma rebuildRaw_length : ∀ (ms : List Marker) (tail : List Char),
    (rebuildRaw ms tail).length
      = (rebuildClean ms tail).length + delimTotal ms := by
  intro ms
  induction ms with
  | nil => intro tail; simp [rebuildRaw, rebuildClean, delimTotal]
  | cons m ms ih =>
    obtain ⟨g, t, p⟩ := m
    intro tail
    simp only [rebuildRaw, rebuildClean, delimTotal, List.length_append,
      markerText_length, ih tail, delimLen]
    omega

/-! ### Inversion of `parse_errors` -/

lemma parse_errors_ok_inv (entry : KNCTEntry) (ct : String)
    (es : List GrammarError) (h : parse_errors entry = .ok (ct, es)) :
    processMarkers entry.error_type 0 (findMarkers entry.error_sentence.data).1
      (findMarkers entry.error_sentence.data).2 = .ok (ct.data, es) := by
  simp only [parse_errors] at h
  rcases hp : processMarkers entry.error_type 0
      (findMarkers entry.error_sentence.data).1
      (findMarkers entry.error_sentence.data).2 with e | ⟨clean, es'⟩ <;>
    rw [hp] at h
  · simp at h
  · simp only [Except.ok.injEq, Prod.mk.injEq] at h
    obtain ⟨h1, h2⟩ := h
    subst h2
    rw [← h1]

lemma matchAt_nil : matchAt [] = none := rfl

/-- If no position matches, the leftmost-match search fails. -/
lemma findNext_eq_none : ∀ l : List Char,
    (∀ i : Nat, matchAt (l.drop i) = none) → findNext l = none := by
  intro l
  induction l with
  | nil => intro _; rfl
  | cons c cs ih =>
    intro h
    rw [findNext_cons]
    have h0 := h 0
    rw [List.drop_zero] at h0
    rw [h0, ih (fun i => by
      have := h (i + 1)
      rwa [List.drop_succ_cons] at this)]

/-- Inversion of one successful step of the processing loop. -/
lemma processMarkers_cons_ok_inv (et : List (String × String)) (ci : Nat)
    (g t p : List Char) (ms : List Marker) (tail ct : List Char)
    (es : List GrammarError)
    (h : processMarkers et ci ((g, t, p) :: ms) tail = .ok (ct, es)) :
    ∃ label rest es', lookupLabel et t = some label ∧
      processMarkers et (ci + g.length + p.length) ms tail = .ok (rest, es') ∧
      ct = g ++ p ++ rest ∧
      es = { text := String.mk p, start := ci + g.length,
             «end» := ci + g.length + p.length, type := label } :: es' := by
  rw [processMarkers_cons] at h
  rcases hlk : lookupLabel et t with _ | ⟨label⟩ <;> rw [hlk] at h
  · simp at h
  · rcases hrec : processMarkers et (ci + g.length + p.length) ms tail with
      e | ⟨rest, es'⟩ <;> rw [hrec] at h
    · simp at h
    · simp only [Except.ok.injEq, Prod.mk.injEq] at h
      exact ⟨label, rest, es', rfl, rfl, h.1.symm, h.2.symm⟩

/-- When the scan recognizes no marker, `parse_errors` is the identity with
no spans. -/
lemma parse_errors_no_markers (entry : KNCTEntry)
    (h : (findMarkers entry.error_sentence.data).1 = []) :
    parse_errors entry = .ok (entry.error_sentence, []) := by
  rcases hfn : findNext entry.error_sentence.data with _ | ⟨⟨g, t, p, r⟩⟩
  · have hfm := findMarkers_eq_none _ hfn
    simp only [parse_errors]
    rw [hfm]
    rfl
  · have hfm := findMarkers_eq_cons _ _ _ _ _ hfn
    rw [hfm] at h
    simp at h

lemma parse_errors_error_iff_inv (entry : KNCTEntry) (e : String) :
    parse_errors entry = .error e ↔
      processMarkers entry.error_type 0
        (findMarkers entry.error_sentence.data).1
        (findMarkers entry.error_sentence.data).2 = .error e := by
  constructor <;> intro h
  · simp only [parse_errors] at h
    rcases hp : processMarkers entry.error_type 0
        (findMarkers entry.error_sentence.data).1
        (findMarkers entry.error_sentence.data).2 with e' | ⟨clean, es'⟩ <;>
      rw [hp] at h
    · have : e' = e := by simpa using h
      rw [← this]
    · simp at h
  · simp only [parse_errors]
    rw [h]

/-! ### Claim theorems -/

/-- C1: whenever `parse_errors` succeeds, the input sentence decomposes into
gaps, raw marker texts and a tail, and the returned clean text is exactly
that decomposition with every marker replaced by its payload — so
concatenating, in order, the gap texts and the payload texts (and the tail)
reproduces `clean_text`, and the surrounding text is unchanged. -/
theorem parse_errors_clean_text_roundtrip (entry : KNCTEntry) (ct : String)
    (es : List GrammarError) (h : parse_errors entry = .ok (ct, es)) :
    entry.error_sentence.data =
      rebuildRaw (findMarkers entry.error_sentence.data).1
        (findMarkers entry.error_sentence.data).2 ∧
    ct.data =
      rebuildClean (findMarkers entry.error_sentence.data).1
        (findMarkers entry.error_sentence.data).2 := by
  have hp := parse_errors_ok_inv entry ct es h
  exact ⟨(findMarkers_rebuildRaw entry.error_sentence.data).symm,
    (processMarkers_ok _ _ _ _ _ _ hp).1⟩

theorem parse_errors_clean_text_roundtrip_witness :
    parse_errors entryC1 = .ok ("abc def ghi",
      [{ text := "def", start := 4, «end» := 7, type := "X" }]) ∧
    entryC1.error_sentence.data =
      rebuildRaw (findMarkers entryC1.error_sentence.data).1
        (findMarkers entryC1.error_sentence.data).2 ∧
    ("abc def ghi" : String).data =
      rebuildClean (findMarkers entryC1.error_sentence.data).1
        (findMarkers entryC1.error_sentence.data).2 :=
  ⟨rfl, parse_errors_clean_text_roundtrip entryC1 "abc def ghi"
    [{ text := "def", start := 4, «end» := 7, type := "X" }] rfl⟩

/-- C2: `parse_errors` fails exactly when some recognized marker's tag has
no entry in `error_type`; the failure is a failure of the whole call (an
`Except.error`, carrying no partial result), and the error value is the
offending tag identifier of a recognized marker. -/
theorem parse_errors_error_characterization (entry : KNCTEntry) :
    ((∃ e, parse_errors entry = .error e) ↔
      ∃ m ∈ (findMarkers entry.error_sentence.data).1,
        lookupLabel entry.error_type m.2.1 = none) ∧
    ∀ e, parse_errors entry = .error e →
      ∃ m ∈ (findMarkers entry.error_sentence.data).1,
        String.mk m.2.1 = e ∧ lookupLabel entry.error_type m.2.1 = none := by
  constructor
  · constructor
    · rintro ⟨e, he⟩
      obtain ⟨m, hm, -, hnone⟩ := processMarkers_error _ _ _ _ _
        ((parse_errors_error_iff_inv entry e).mp he)
      exact ⟨m, hm, hnone⟩
    · intro hex
      obtain ⟨e, he⟩ := processMarkers_error_exists _ entry.error_type 0 _ hex
      exact ⟨e, (parse_errors_error_iff_inv entry e).mpr he⟩
  · intro e he
    exact processMarkers_error _ _ _ _ _
      ((parse_errors_error_iff_inv entry e).mp he)

theorem parse_errors_error_characterization_witness :
    ∃ e, parse_errors entryC2 = .error e :=
  (parse_errors_error_characterization entryC2).1.mpr (by decide)

/-- C4: markup that the pattern does not recognize (unmatched opens, stray
`<`/`>`, mismatched identifiers) never makes `parse_errors` fail — whenever
every recognized marker's tag is labelled, the call succeeds, the
unrecognized text flows verbatim into the clean text (gaps and tail are kept
character for character), and only recognized markers produce spans. -/
theorem malformed_markup_never_errors (entry : KNCTEntry)
    (hcov : ∀ m ∈ (findMarkers entry.error_sentence.data).1,
      lookupLabel entry.error_type m.2.1 ≠ none) :
    ∃ ct es, parse_errors entry = .ok (ct, es) ∧
      ct.data = rebuildClean (findMarkers entry.error_sentence.data).1
        (findMarkers entry.error_sentence.data).2 ∧
      es.length = (findMarkers entry.error_sentence.data).1.length := by
  obtain ⟨ct, es, hp⟩ :=
    processMarkers_ok_of_covered _ entry.error_type 0 _ hcov
  obtain ⟨hclean, hmap, -, -⟩ := processMarkers_ok _ _ _ _ _ _ hp
  refine ⟨String.mk ct, es, ?_, hclean, ?_⟩
  · simp only [parse_errors]
    rw [hp]
  · have := congrArg List.length hmap
    simpa using this

theorem malformed_markup_never_errors_witness :
    (∀ m ∈ (findMarkers entryC4.error_sentence.data).1,
      lookupLabel entryC4.error_type m.2.1 ≠ none) ∧
    ∃ ct es, parse_errors entryC4 = .ok (ct, es) ∧
      ct.data = rebuildClean (findMarkers entryC4.error_sentence.data).1
        (findMarkers entryC4.error_sentence.data).2 ∧
      es.length = (findMarkers entryC4.error_sentence.data).1.length :=
  ⟨by decide, malformed_markup_never_errors entryC4 (by decide)⟩

/-- C5: on success, the spans follow their markers' left-to-right order
(their texts are the markers' payloads in scan order), consecutive spans do
not overlap (`a.end ≤ b.start`), and every span satisfies
`start ≤ end ≤ length clean_text` (`start`, `end` are naturals, hence
`0 ≤ start`). -/
theorem spans_ordered_nonoverlapping_in_bounds (entry : KNCTEntry)
    (ct : String) (es : List GrammarError)
    (h : parse_errors entry = .ok (ct, es)) :
    es.map (fun e => e.text)
      = (findMarkers entry.error_sentence.data).1.map
          (fun m => String.mk m.2.2) ∧
    List.Chain' (fun a b => a.«end» ≤ b.start) es ∧
    ∀ e ∈ es, e.start ≤ e.«end» ∧ e.«end» ≤ ct.length := by
  have hp := parse_errors_ok_inv entry ct es h
  obtain ⟨-, hmap, hbounds, hchain⟩ := processMarkers_ok _ _ _ _ _ _ hp
  refine ⟨hmap, hchain, fun e he => ?_⟩
  obtain ⟨-, hb2, hb3, -⟩ := hbounds e he
  refine ⟨hb2, ?_⟩
  have hct : ct.length = ct.data.length := rfl
  omega

theorem spans_ordered_nonoverlapping_in_bounds_witness :
    parse_errors entryC5 = .ok ("AAxBB",
      [{ text := "AA", start := 0, «end» := 2, type := "X" },
       { text := "BB", start := 3, «end» := 5, type := "Y" }]) ∧
    (List.Chain' (fun a b => a.«end» ≤ b.start)
      ([{ text := "AA", start := 0, «end» := 2, type := "X" },
        { text := "BB", start := 3, «end» := 5, type := "Y" }] :
        List GrammarError) ∧
     ∀ e ∈ [({ text := "AA", start := 0, «end» := 2, type := "X" } :
         GrammarError),
        { text := "BB", start := 3, «end» := 5, type := "Y" }],
       e.start ≤ e.«end» ∧ e.«end» ≤ ("AAxBB" : String).length) :=
  ⟨rfl,
    (spans_ordered_nonoverlapping_in_bounds entryC5 "AAxBB"
      [{ text := "AA", start := 0, «end» := 2, type := "X" },
       { text := "BB", start := 3, «end» := 5, type := "Y" }] rfl).2⟩

/-- C6: on success every span measures its own text
(`end - start = length text`), and the clean text's length is the input
sentence's length minus the characters of the removed delimiters of the
recognized markers. -/
theorem span_and_clean_length_invariant (entry : KNCTEntry)
    (ct : String) (es : List GrammarError)
    (h : parse_errors entry = .ok (ct, es)) :
    (∀ e ∈ es, e.«end» - e.start = e.text.length) ∧
    ct.length + delimTotal (findMarkers entry.error_sentence.data).1
      = entry.error_sentence.length ∧
    ct.length = entry.error_sentence.length
      - delimTotal (findMarkers entry.error_sentence.data).1 := by
  have hp := parse_errors_ok_inv entry ct es h
  obtain ⟨hclean, -, hbounds, -⟩ := processMarkers_ok _ _ _ _ _ _ hp
  have hraw := findMarkers_rebuildRaw entry.error_sentence.data
  have hlen : entry.error_sentence.data.length
      = (rebuildClean (findMarkers entry.error_sentence.data).1
          (findMarkers entry.error_sentence.data).2).length
        + delimTotal (findMarkers entry.error_sentence.data).1 := by
    rw [← rebuildRaw_length, hraw]
  have hctlen : ct.length
      = (rebuildClean (findMarkers entry.error_sentence.data).1
          (findMarkers entry.error_sentence.data).2).length := by
    show ct.data.length = _
    rw [hclean]
  have hslen : entry.error_sentence.length
      = entry.error_sentence.data.length := rfl
  exact ⟨fun e he => (hbounds e he).2.2.2, by omega, by omega⟩

theorem span_and_clean_length_invariant_witness :
    parse_errors entryC6 = .ok ("aa bb.",
      [{ text := "bb", start := 3, «end» := 5, type := "Z" }]) ∧
    ("aa bb." : String).length
      + delimTotal (findMarkers entryC6.error_sentence.data).1
      = entryC6.error_sentence.length :=
  ⟨rfl, (span_and_clean_length_invariant entryC6 "aa bb."
    [{ text := "bb", start := 3, «end» := 5, type := "Z" }] rfl).2.1⟩

/-- C7: a sentence in which the scan recognizes no marker is returned
verbatim as the clean text, with an empty span list. -/
theorem no_markers_noop (entry : KNCTEntry)
    (h : (findMarkers entry.error_sentence.data).1 = []) :
    parse_errors entry = .ok (entry.error_sentence, []) :=
  parse_errors_no_markers entry h

theorem no_markers_noop_witness :
    (findMarkers entryC7.error_sentence.data).1 = [] ∧
    parse_errors entryC7 = .ok (entryC7.error_sentence, []) :=
  ⟨by decide, no_markers_noop entryC7 (by decide)⟩

/-- C9: `parse_errors` reads only the `error_sentence` and `error_type`
fields of its input: two entries agreeing on those two fields produce equal
results, whatever their other fields are.  (In this embedding the function
is pure by construction, so there is no mutation or other observable
effect.) -/
theorem parse_errors_reads_only_two_fields (a b : KNCTEntry)
    (h1 : a.error_sentence = b.error_sentence)
    (h2 : a.error_type = b.error_type) :
    parse_errors a = parse_errors b := by
  simp only [parse_errors, h1, h2]

theorem parse_errors_reads_only_two_fields_witness :
    entryC9a.index ≠ entryC9b.index ∧
    entryC9a.correct_sentence ≠ entryC9b.correct_sentence ∧
    entryC9a.domain ≠ entryC9b.domain ∧
    entryC9a.style ≠ entryC9b.style ∧
    entryC9a.syllable ≠ entryC9b.syllable ∧
    entryC9a.phrase ≠ entryC9b.phrase ∧
    entryC9a.number_of_error ≠ entryC9b.number_of_error ∧
    parse_errors entryC9a = parse_errors entryC9b :=
  ⟨by decide, by decide, by decide, by decide, by decide, by decide,
    by decide, parse_errors_reads_only_two_fields entryC9a entryC9b rfl rfl⟩

/-- C3 counterexample: the tag `ab1` is one-or-more lowercase letters
followed by digits, its closing identifier matches, and it is labelled in
`error_type`, yet `parse_errors` emits no span for it and passes the marker
through verbatim — the pattern only accepts the single letter `e` before the
digits. -/
theorem tag_pattern_counterexample :
    entryC3bad.error_sentence = "<ab1>x</ab1>" ∧
    ("ab1", "lexical") ∈ entryC3bad.error_type ∧
    parse_errors entryC3bad = .ok ("<ab1>x</ab1>", []) :=
  ⟨rfl, by decide, rfl⟩

/-- C3 amended: markers are recognized by the bit-exact syntax
`<eN>payload</eN>` where the tag is the lowercase letter `e` followed by one
or more digits and the closing identifier equals the opening one.  For a
sentence containing such a marker — with a newline-free payload, no earlier
occurrence of the closing delimiter, and no match starting before it — the
scan recognizes exactly that marker, and when the call succeeds its span
(payload text, clean-text offsets, looked-up label) heads the span list from
that point. -/
theorem marker_recognition_e_tags (entry : KNCTEntry)
    (pre ds payload suf : List Char) (ct : String) (es : List GrammarError)
    (label : String)
    (hs : entry.error_sentence.data
      = pre ++ (markerText ('e' :: ds) payload ++ suf))
    (hne : ds ≠ []) (hdig : ∀ c ∈ ds, c.isDigit)
    (hnl : ∀ c ∈ payload, c ≠ '\n')
    (hno : ∀ i < payload.length,
      ¬ (closeTag ('e' :: ds)).isPrefixOf
        ((payload ++ (closeTag ('e' :: ds) ++ suf)).drop i))
    (hpre : ∀ i < pre.length,
      matchAt (entry.error_sentence.data.drop i) = none)
    (hlabel : lookupLabel entry.error_type ('e' :: ds) = some label)
    (hok : parse_errors entry = .ok (ct, es)) :
    ∃ es', es
      = { text := String.mk payload, start := pre.length,
          «end» := pre.length + payload.length, type := label } :: es' := by
  have hma := matchAt_marker ds payload suf hne hdig hnl hno
  have hfn : findNext entry.error_sentence.data
      = some (pre, 'e' :: ds, payload, suf) := by
    rw [hs]
    exact findNext_from_gap pre _ _ _ _
      (fun i hi => by rw [← hs]; exact hpre i hi) hma
  have hfm := findMarkers_eq_cons _ _ _ _ _ hfn
  have hp := parse_errors_ok_inv entry ct es hok
  rw [hfm] at hp
  obtain ⟨label', rest, es', hlk, -, -, hes⟩ :=
    processMarkers_cons_ok_inv _ _ _ _ _ _ _ _ _ hp
  rw [hlabel] at hlk
  obtain rfl : label = label' := by simpa using hlk
  refine ⟨es', ?_⟩
  rw [hes]
  simp

theorem marker_recognition_e_tags_witness :
    parse_errors entryC3 = .ok ("ab cd ef",
      [{ text := "cd", start := 3, «end» := 5, type := "X" }]) ∧
    ∃ es', ([{ text := "cd", start := 3, «end» := 5, type := "X" }] :
        List GrammarError)
      = { text := String.mk ['c', 'd'], start := ['a', 'b', ' '].length,
          «end» := ['a', 'b', ' '].length + ['c', 'd'].length,
          type := "X" } :: es' :=
  ⟨rfl, marker_recognition_e_tags entryC3 ['a', 'b', ' '] ['1'] ['c', 'd']
    [' ', 'e', 'f'] "ab cd ef"
    [{ text := "cd", start := 3, «end» := 5, type := "X" }] "X"
    (by decide) (by decide) (by decide) (by decide) (by decide) (by decide)
    (by decide) rfl⟩

/-- C8: two markers with no characters between the first's close and the
second's open yield back-to-back spans (the second starts where the first
ends); in particular the documented concrete scenario holds exactly. -/
theorem adjacent_markers_back_to_back :
    (∀ (et : List (String × String)) (ci : Nat) (g1 t1 p1 t2 p2 : List Char)
      (ms : List Marker) (tail ct : List Char) (e1 e2 : GrammarError)
      (es : List GrammarError),
      processMarkers et ci ((g1, t1, p1) :: ([], t2, p2) :: ms) tail
        = .ok (ct, e1 :: e2 :: es) →
      e2.start = e1.«end») ∧
    parse_errors entryC8 = .ok ("AABB",
      [{ text := "AA", start := 0, «end» := 2, type := "X" },
       { text := "BB", start := 2, «end» := 4, type := "Y" }]) := by
  constructor
  · intro et ci g1 t1 p1 t2 p2 ms tail ct e1 e2 es h
    obtain ⟨l1, rest1, es1, -, hrec1, -, hes1⟩ :=
      processMarkers_cons_ok_inv _ _ _ _ _ _ _ _ _ h
    injection hes1 with he1 htl1
    subst htl1
    obtain ⟨l2, rest2, es2, -, hrec2, -, hes2⟩ :=
      processMarkers_cons_ok_inv _ _ _ _ _ _ _ _ _ hrec1
    injection hes2 with he2 htl2
    rw [he1, he2]
    simp
  · rfl

theorem adjacent_markers_back_to_back_witness :
    ({ text := "BB", start := 2, «end» := 4, type := "Y" } :
      GrammarError).start
      = ({ text := "AA", start := 0, «end» := 2, type := "X" } :
      GrammarError).«end» :=
  adjacent_markers_back_to_back.1 [("e1", "X"), ("e2", "Y")] 0 []
    ['e', '1'] ['A', 'A'] ['e', '2'] ['B', 'B'] [] [] ['A', 'A', 'B', 'B']
    { text := "AA", start := 0, «end» := 2, type := "X" }
    { text := "BB", start := 2, «end» := 4, type := "Y" } [] rfl

/-- C10: a marker whose payload contains a newline is not recognized — the
non-greedy payload pattern cannot cross a line break — so when no other
match exists in the sentence, the tagged text passes through into the clean
text verbatim, delimiters included, with no span and no error. -/
theorem newline_payload_passthrough (entry : KNCTEntry)
    (pre ds payload suf : List Char) (k : Nat)
    (hs : entry.error_sentence.data
      = pre ++ (markerText ('e' :: ds) payload ++ suf))
    (hne : ds ≠ []) (hdig : ∀ c ∈ ds, c.isDigit)
    (hk : k < payload.length) (hnl : payload.getD k ' ' = '\n')
    (hno : ∀ i ≤ k, ¬ (closeTag ('e' :: ds)).isPrefixOf
      ((payload ++ (closeTag ('e' :: ds) ++ suf)).drop i))
    (hother : ∀ i ≤ entry.error_sentence.data.length, i ≠ pre.length →
      matchAt (entry.error_sentence.data.drop i) = none) :
    parse_errors entry = .ok (entry.error_sentence, []) := by
  have hshape : markerText ('e' :: ds) payload ++ suf
      = '<' :: 'e' :: ds ++ '>' ::
          (payload ++ (closeTag ('e' :: ds) ++ suf)) := by
    simp [markerText, closeTag]
  have hfp : findPayload (closeTag ('e' :: ds))
      (payload ++ (closeTag ('e' :: ds) ++ suf)) = none := by
    apply findPayload_newline _ k _ ?_ ?_ hno
    · simp only [List.length_append]
      omega
    · rw [List.getD_append _ _ _ _ hk]
      exact hnl
  have hat : matchAt (entry.error_sentence.data.drop pre.length) = none := by
    rw [hs, List.drop_left, hshape]
    unfold matchAt
    rw [matchOpen_marker ds _ hne hdig]
    simp [hfp]
  have hall : ∀ i, matchAt (entry.error_sentence.data.drop i) = none := by
    intro i
    by_cases hle : i ≤ entry.error_sentence.data.length
    · by_cases hi : i = pre.length
      · rw [hi]
        exact hat
      · exact hother i hle hi
    · rw [List.drop_eq_nil_of_le (by omega)]
      exact matchAt_nil
  have hfm := findMarkers_eq_none _ (findNext_eq_none _ hall)
  exact parse_errors_no_markers entry (by rw [hfm])

theorem newline_payload_passthrough_witness :
    entryC10.error_sentence = "<e1>a\nb</e1>" ∧
    (['a', '\n', 'b'].getD 1 ' ' = '\n') ∧
    parse_errors entryC10 = .ok (entryC10.error_sentence, []) :=
  ⟨rfl, by decide,
    newline_payload_passthrough entryC10 [] ['1'] ['a', '\n', 'b'] [] 1
      (by decide) (by decide) (by decide) (by decide) (by decide)
      (by decide)
      (by
        have hfull : ∀ i, i ≤ entryC10.error_sentence.data.length →
            matchAt (List.drop i entryC10.error_sentence.data) = none := by
          decide
        exact fun i hi _ => hfull i hi)⟩

end Knct
